import Mathlib

/-!
# Ethereum wallet generator: scheduling loop, filter, report and lifecycle

A shallow embedding of `main.go`, in two readings of a stride.

* `worker` takes the goroutines of a stride one after another in launch
  order. This is what the program does for `-c 1`, and for any `-c` it is exact
  for everything only the worker goroutine writes: the loop indices, the
  launches, the stride boundaries and the calls `db.Begin`, `wg.Wait`,
  `tx.Commit`.
* `workerRacy` runs the goroutines of a stride along a schedule of atomic
  steps, in which `resolvedCount++`, `txResolved++` and the write to the shared
  `strings.Builder` are a load followed by a store: the program holds no lock
  around them.

The external key derivation library is an oracle; the loop counters `i`, `j`
and the flags `-n`, `-c` are mathematical integers (the only addition that
could leave the 64-bit range is `i += C`, and only after at least `2^62` tasks
have been launched).
-/

namespace WalletGen

/-! ## The pieces of the Go standard library the program calls -/

/-- Go's `strings.HasPrefix` on character lists. -/
def hasPrefixOf : List Char → List Char → Bool
  | _, [] => true
  | [], _ :: _ => false
  | c :: s, d :: p => c == d && hasPrefixOf s p

/-- Go's `strings.Contains` on character lists: some suffix of `s` starts with `sub`. -/
def containsChars : List Char → List Char → Bool
  | [], sub => hasPrefixOf [] sub
  | c :: s, sub => hasPrefixOf (c :: s) sub || containsChars s sub

/-- Go's `strings.Contains(s, substr)`. -/
def Contains (s substr : String) : Bool :=
  containsChars s.data substr.data

/-- Go's `strings.Repeat`. -/
def Repeat (s : String) : Nat → String
  | 0 => ""
  | count + 1 => s ++ Repeat s count

/-- One directive of a format string: literal text, or the verb `%s` with its
`-` flag and width. -/
inductive Directive where
  | lit (c : Char)
  | str (minus : Bool) (width : Nat)
  deriving DecidableEq, Repr

/-- Reads the decimal width of a verb; returns the width and the rest. -/
def readWidth : Nat → List Char → Nat × List Char
  | acc, [] => (acc, [])
  | acc, c :: cs =>
    if c.isDigit then readWidth (acc * 10 + (c.toNat - '0'.toNat)) cs else (acc, c :: cs)

/-- Parses the fragment of `fmt` format strings the program uses: literal
characters and `%[-][width]s`. Anything else is kept as literal text. -/
def parseFormat : Nat → List Char → List Directive
  | 0, _ => []
  | _ + 1, [] => []
  | fuel + 1, '%' :: '-' :: cs =>
    match readWidth 0 cs with
    | (w, 's' :: rest) => Directive.str true w :: parseFormat fuel rest
    | _ => Directive.lit '%' :: parseFormat fuel ('-' :: cs)
  | fuel + 1, '%' :: cs =>
    match readWidth 0 cs with
    | (w, 's' :: rest) => Directive.str false w :: parseFormat fuel rest
    | _ => Directive.lit '%' :: parseFormat fuel cs
  | fuel + 1, c :: cs => Directive.lit c :: parseFormat fuel cs

/-- Padding of `fmt`: the width counts characters; with the `-` flag the
spaces go to the right of the text, without it to the left. -/
def pad (minus : Bool) (width : Nat) (s : String) : String :=
  if minus then s ++ Repeat " " (width - s.length)
  else Repeat " " (width - s.length) ++ s

/-- Renders directives against the operands, as `fmt` does for `%s`. -/
def render : List Directive → List String → String
  | [], _ => ""
  | Directive.lit c :: ds, args => String.singleton c ++ render ds args
  | Directive.str _ _ :: ds, [] => "%!s(MISSING)" ++ render ds []
  | Directive.str m w :: ds, a :: args => pad m w a ++ render ds args

/-- Go's `fmt.Sprintf` for string operands. -/
def Sprintf (format : String) (args : List String) : String :=
  render (parseFormat (format.length + 1) format.data) args

/-! ## Data model -/

/-- The `Wallet` record. The time stamps and the `gorm.Model` columns are left
out: the program only writes them. -/
structure Wallet where
  Address : String
  PrivateKey : String
  Mnemonic : String
  Bits : Int
  HDPath : String
  deriving DecidableEq, Repr

/-- The key derivation library `go-ethereum-hdwallet`, seen from the program:
`NewMnemonic bits k` is the mnemonic returned by the `k`-th call, the other
fields are what the library derives from a mnemonic on the default path. -/
structure HDWallet where
  NewMnemonic : Int → Nat → String
  AddressHex : String → String
  PrivateKeyHex : String → String
  URLPath : String → String

/-- The package-level `createWallet(mnemonic)`. -/
def createWallet (hd : HDWallet) (mnemonic : String) : Wallet :=
  { Address := hd.AddressHex mnemonic
    PrivateKey := hd.PrivateKeyHex mnemonic
    Mnemonic := mnemonic
    Bits := 0
    HDPath := hd.URLPath mnemonic }

/-- The function `generateNewWallet(bits)`, at its `call`-th invocation. -/
def generateNewWallet (hd : HDWallet) (bits : Int) (call : Nat) : Wallet :=
  let mnemonic := hd.NewMnemonic bits call
  let wallet := createWallet hd mnemonic
  { wallet with Bits := bits }

/-- The command line flags after `flag.Parse()`. -/
structure Config where
  number : Int
  dbPath : String
  concurrency : Int
  bits : Int
  contain : String
  isDryrun : Bool

/-- What the worker does to the database and the wait group, in program order. -/
inductive Event where
  | migrate
  | txBegin
  | task (call : Nat)
  | txCreate (w : Wallet)
  | wgWait
  | txCommit
  deriving DecidableEq, Repr

/-- The variables the worker goroutine reads and writes, with the database
session (`pending`, `rows`), the progress bar, standard output, and two
observers: `strides` records at each `wg.Wait()` the start index of the stride
and how many tasks it launched, `trace` records the calls in order. -/
structure State where
  resolvedCount : Int
  txResolved : Int
  calls : Nat
  launched : Nat
  strides : List (Int × Nat)
  trace : List Event
  pending : List Wallet
  rows : List Wallet
  result : String
  stdout : String
  barCurrent : Nat
  barResolved : String
  barFinished : Bool
  deriving DecidableEq, Repr

/-- The state when the worker goroutine starts. -/
def State.init : State :=
  { resolvedCount := 0, txResolved := 0, calls := 0, launched := 0, strides := [],
    trace := [], pending := [], rows := [], result := "", stdout := "",
    barCurrent := 0, barResolved := "", barFinished := false }

/-! ## The database session (`gorm`), as the program uses it -/

/-- The call `db.Begin()`: a fresh transaction. -/
def dbBegin (st : State) : State :=
  { st with trace := st.trace ++ [Event.txBegin], pending := [] }

/-- The call `tx.Create(wallet)`: with `DryRun` the statement is built and not
executed, otherwise the row joins the open transaction. -/
def txCreate (cfg : Config) (wallet : Wallet) (st : State) : State :=
  { st with
    trace := st.trace ++ [Event.txCreate wallet]
    pending := if cfg.isDryrun then st.pending else st.pending ++ [wallet] }

/-- The call `tx.Commit()`: the rows of the transaction become durable. -/
def txCommit (st : State) : State :=
  { st with trace := st.trace ++ [Event.txCommit], rows := st.rows ++ st.pending, pending := [] }

/-- The call `wg.Wait()` closing the stride that started at index `i` when
`before` tasks had been launched. -/
def wgWait (i : Int) (before : Nat) (st : State) : State :=
  { st with
    trace := st.trace ++ [Event.wgWait]
    strides := st.strides ++ [(i, st.launched - before)] }

/-! ## The worker goroutine -/

/-- The goroutine body of the persistence branch (lines 143-155). -/
def dbTask (cfg : Config) (hd : HDWallet) (st : State) : State :=
  let wallet := generateNewWallet hd cfg.bits st.calls
  let st := { st with
    calls := st.calls + 1
    trace := st.trace ++ [Event.task st.calls]
    barCurrent := st.barCurrent + 1 }
  if cfg.contain != "" && !Contains wallet.Address cfg.contain then
    st
  else
    txCreate cfg wallet { st with txResolved := st.txResolved + 1 }

/-- The inner loop of the persistence branch (line 140): `wg.Add(1)` and the
task, for `j` from its current value, each goroutine running to its end before
the next is launched. -/
def dbInner (cfg : Config) (hd : HDWallet) (i : Int) : Nat → Int → State → Option State
  | 0, _, _ => none
  | fuel + 1, j, st =>
    if j < cfg.concurrency && i + j < cfg.number then
      dbInner cfg hd i fuel (j + 1) (dbTask cfg hd { st with launched := st.launched + 1 })
    else
      some st

/-- What follows the inner loop in a stride of the persistence branch
(lines 157-160); the verb `%v` of the bar label prints the integer in decimal. -/
def dbAfter (i : Int) (before : Nat) (st : State) : State :=
  let st := wgWait i before st
  let st := txCommit st
  let st := { st with resolvedCount := st.resolvedCount + st.txResolved }
  { st with barResolved := "resovled: " ++ toString st.resolvedCount }

/-- The outer loop of the persistence branch (line 137); `limit` is the fuel
handed to each inner loop. -/
def dbOuter (cfg : Config) (hd : HDWallet) (limit : Nat) : Nat → Int → State → Option State
  | 0, _, _ => none
  | fuel + 1, i, st =>
    if i < cfg.number then
      match dbInner cfg hd i limit 0 { dbBegin st with txResolved := 0 } with
      | none => none
      | some st2 => dbOuter cfg hd limit fuel (i + cfg.concurrency) (dbAfter i st.launched st2)
    else
      some st

/-- The goroutine body of the report branch (lines 172-185). -/
def reportTask (cfg : Config) (hd : HDWallet) (st : State) : State :=
  let wallet := generateNewWallet hd cfg.bits st.calls
  let st := { st with
    calls := st.calls + 1
    trace := st.trace ++ [Event.task st.calls]
    barCurrent := st.barCurrent + 1 }
  if cfg.contain != "" && !Contains wallet.Address cfg.contain then
    st
  else
    let st := { st with
      result := st.result ++ Sprintf "%-18s %s\n" [wallet.Address, wallet.Mnemonic] }
    let st := { st with resolvedCount := st.resolvedCount + 1 }
    { st with barResolved := "resovled: " ++ toString st.resolvedCount }

/-- The inner loop of the report branch (line 169), each goroutine running to
its end before the next is launched. -/
def reportInner (cfg : Config) (hd : HDWallet) (i : Int) : Nat → Int → State → Option State
  | 0, _, _ => none
  | fuel + 1, j, st =>
    if j < cfg.concurrency && i + j < cfg.number then
      reportInner cfg hd i fuel (j + 1) (reportTask cfg hd { st with launched := st.launched + 1 })
    else
      some st

/-- The outer loop of the report branch (line 168). -/
def reportOuter (cfg : Config) (hd : HDWallet) (limit : Nat) : Nat → Int → State → Option State
  | 0, _, _ => none
  | fuel + 1, i, st =>
    if i < cfg.number then
      match reportInner cfg hd i limit 0 st with
      | none => none
      | some st2 => reportOuter cfg hd limit fuel (i + cfg.concurrency) (wgWait i st.launched st2)
    else
      some st

/-- The goroutine started by `main` (lines 116-198), with `gorm.Open`
succeeding and the goroutines of a stride taken one after another. `none`
means the fuel ran out before the goroutine returned. -/
def worker (cfg : Config) (hd : HDWallet) (fuel : Nat) : Option State :=
  let st := State.init
  if cfg.dbPath != "" then
    let st := if !cfg.isDryrun then { st with trace := st.trace ++ [Event.migrate] } else st
    match dbOuter cfg hd fuel fuel 0 st with
    | none => none
    | some st => some { st with barFinished := true }
  else
    match reportOuter cfg hd fuel fuel 0 st with
    | none => none
    | some st =>
      let st := { st with barFinished := true }
      if cfg.isDryrun then
        some st
      else
        let st := { st with stdout := st.stdout ++ Sprintf "\n%-42s %s\n" ["Address", "Seed"] }
        let st := { st with
          stdout := st.stdout ++ Sprintf "%-42s %s\n" [Repeat "-" 42, Repeat "-" 160] }
        some { st with stdout := st.stdout ++ st.result ++ "\n" }

/-! ## The goroutines of a stride under a schedule -/

/-- Where a goroutine of a stride stands. The statements `resolvedCount++`,
`txResolved++` and the write to the shared `strings.Builder` are a load
followed by a store, and nothing in the program keeps another goroutine of the
stride from running between the two. -/
inductive Pc where
  | start
  | loadBuf (w : Wallet)
  | storeBuf (w : Wallet) (buf : String)
  | loadCount
  | storeCount (r : Int)
  | setBar
  | loadTx (w : Wallet)
  | storeTx (w : Wallet) (r : Int)
  | create (w : Wallet)
  | done
  deriving DecidableEq, Repr

/-- One atomic step of a goroutine of the report branch (lines 172-185);
`none` once the goroutine has returned. -/
def reportStepRacy (cfg : Config) (hd : HDWallet) (st : State) : Pc → Option (State × Pc)
  | Pc.start =>
    let wallet := generateNewWallet hd cfg.bits st.calls
    let st := { st with
      calls := st.calls + 1
      trace := st.trace ++ [Event.task st.calls]
      barCurrent := st.barCurrent + 1 }
    if cfg.contain != "" && !Contains wallet.Address cfg.contain then
      some (st, Pc.done)
    else
      some (st, Pc.loadBuf wallet)
  | Pc.loadBuf w => some (st, Pc.storeBuf w st.result)
  | Pc.storeBuf w buf =>
    some ({ st with result := buf ++ Sprintf "%-18s %s\n" [w.Address, w.Mnemonic] },
      Pc.loadCount)
  | Pc.loadCount => some (st, Pc.storeCount st.resolvedCount)
  | Pc.storeCount r => some ({ st with resolvedCount := r + 1 }, Pc.setBar)
  | Pc.setBar =>
    some ({ st with barResolved := "resovled: " ++ toString st.resolvedCount }, Pc.done)
  | _ => none

/-- One atomic step of a goroutine of the persistence branch (lines 143-155);
`none` once the goroutine has returned. -/
def dbStepRacy (cfg : Config) (hd : HDWallet) (st : State) : Pc → Option (State × Pc)
  | Pc.start =>
    let wallet := generateNewWallet hd cfg.bits st.calls
    let st := { st with
      calls := st.calls + 1
      trace := st.trace ++ [Event.task st.calls]
      barCurrent := st.barCurrent + 1 }
    if cfg.contain != "" && !Contains wallet.Address cfg.contain then
      some (st, Pc.done)
    else
      some (st, Pc.loadTx wallet)
  | Pc.loadTx w => some (st, Pc.storeTx w st.txResolved)
  | Pc.storeTx w r => some ({ st with txResolved := r + 1 }, Pc.create w)
  | Pc.create w => some (txCreate cfg w st, Pc.done)
  | _ => none

/-- The goroutines of a stride run along a schedule: each entry names the
goroutine that takes its next step. `none` when the schedule names a goroutine
that does not exist or has returned. -/
def runSchedule (step : State → Pc → Option (State × Pc)) :
    List Nat → State → List Pc → Option (State × List Pc)
  | [], st, pcs => some (st, pcs)
  | g :: rest, st, pcs =>
    match pcs[g]? with
    | none => none
    | some pc =>
      match step st pc with
      | none => none
      | some (st2, pc2) => runSchedule step rest st2 (pcs.set g pc2)

/-- The inner loop (lines 140 and 169) as the launch of the goroutines:
`wg.Add(1)` and `go`, for `j` from its current value. -/
def launchRacy (cfg : Config) (i : Int) : Nat → Int → State → List Pc → Option (State × List Pc)
  | 0, _, _, _ => none
  | fuel + 1, j, st, pcs =>
    if j < cfg.concurrency && i + j < cfg.number then
      launchRacy cfg i fuel (j + 1) { st with launched := st.launched + 1 } (pcs ++ [Pc.start])
    else
      some (st, pcs)

/-- One stride of the report branch under a schedule: launch, the steps of
the schedule, and `wg.Wait()`, which returns only when every goroutine has. -/
def reportStrideRacy (cfg : Config) (hd : HDWallet) (i : Int) (st : State)
    (schedule : List Nat) : Option State :=
  match launchRacy cfg i (schedule.length + 1) 0 st [] with
  | none => none
  | some (st1, pcs) =>
    match runSchedule (reportStepRacy cfg hd) schedule st1 pcs with
    | none => none
    | some (st2, pcs2) =>
      if pcs2.all (fun pc => decide (pc = Pc.done)) then some (wgWait i st.launched st2)
      else none

/-- One stride of the persistence branch under a schedule. -/
def dbStrideRacy (cfg : Config) (hd : HDWallet) (i : Int) (st : State)
    (schedule : List Nat) : Option State :=
  match launchRacy cfg i (schedule.length + 1) 0 { dbBegin st with txResolved := 0 } [] with
  | none => none
  | some (st1, pcs) =>
    match runSchedule (dbStepRacy cfg hd) schedule st1 pcs with
    | none => none
    | some (st2, pcs2) =>
      if pcs2.all (fun pc => decide (pc = Pc.done)) then some (dbAfter i st.launched st2)
      else none

/-- The outer loop (lines 137 and 168) with one schedule per stride. -/
def outerRacy (stride : Int → State → List Nat → Option State) (cfg : Config) :
    List (List Nat) → Int → State → Option State
  | [], i, st => if i < cfg.number then none else some st
  | schedule :: rest, i, st =>
    if i < cfg.number then
      match stride i st schedule with
      | none => none
      | some st2 => outerRacy stride cfg rest (i + cfg.concurrency) st2
    else
      some st

/-- The goroutine started by `main` (lines 116-198) with the goroutines of
each stride run along the given schedules. -/
def workerRacy (cfg : Config) (hd : HDWallet) (schedules : List (List Nat)) : Option State :=
  let st := State.init
  if cfg.dbPath != "" then
    let st := if !cfg.isDryrun then { st with trace := st.trace ++ [Event.migrate] } else st
    match outerRacy (dbStrideRacy cfg hd) cfg schedules 0 st with
    | none => none
    | some st => some { st with barFinished := true }
  else
    match outerRacy (reportStrideRacy cfg hd) cfg schedules 0 st with
    | none => none
    | some st =>
      let st := { st with barFinished := true }
      if cfg.isDryrun then
        some st
      else
        let st := { st with stdout := st.stdout ++ Sprintf "\n%-42s %s\n" ["Address", "Seed"] }
        let st := { st with
          stdout := st.stdout ++ Sprintf "%-42s %s\n" [Repeat "-" 42, Repeat "-" 160] }
        some { st with stdout := st.stdout ++ st.result ++ "\n" }

/-! ## The lifecycle of `main` -/

/-- The signals registered on the interrupt channel (lines 86-92). -/
inductive Signal where
  | SIGHUP
  | SIGINT
  | SIGQUIT
  | SIGTERM
  deriving DecidableEq, Repr

/-- Where `main` stands: blocked on `<-interrupt`, running its deferred
function, or returned. -/
inductive Phase where
  | Running
  | Draining
  | Terminated
  deriving DecidableEq, Repr

/-- The state of the lifecycle: the phase of `main`, the content of the
channel `interrupt` (capacity 1), whether the worker has completed its
deferred send, and how many times the summary has been printed. -/
structure Lifecycle where
  phase : Phase
  interrupt : Option Signal
  workerSent : Bool
  summaries : Nat
  deriving DecidableEq, Repr

/-- What can happen to a running process. -/
inductive LifeEvent where
  | operatorSignal (sig : Signal)
  | workerDone
  | receive
  | summary
  deriving DecidableEq, Repr

/-- The process right after `signal.Notify`. -/
def Lifecycle.init : Lifecycle :=
  { phase := Phase.Running, interrupt := none, workerSent := false, summaries := 0 }

/-- One step of the lifecycle, `none` when the event cannot happen:
* `operatorSignal`: `signal.Notify` sends without blocking, so the signal is
  dropped when the channel is full;
* `workerDone`: the deferred `interrupt <- syscall.SIGQUIT` of the worker
  (line 121) blocks until the channel has room;
* `receive`: `<-interrupt` at the end of `main` (line 199);
* `summary`: the deferred function of `main` (lines 108-114) prints the three
  statistics, and the process exits. -/
def Lifecycle.step (s : Lifecycle) : LifeEvent → Option Lifecycle
  | LifeEvent.operatorSignal sig =>
    if s.phase = Phase.Terminated then none
    else
      match s.interrupt with
      | none => some { s with interrupt := some sig }
      | some _ => some s
  | LifeEvent.workerDone =>
    if s.phase = Phase.Terminated ∨ s.workerSent = true then none
    else
      match s.interrupt with
      | none => some { s with interrupt := some Signal.SIGQUIT, workerSent := true }
      | some _ => none
  | LifeEvent.receive =>
    if s.phase = Phase.Running then
      match s.interrupt with
      | none => none
      | some _ => some { s with phase := Phase.Draining, interrupt := none }
    else none
  | LifeEvent.summary =>
    if s.phase = Phase.Draining then
      some { s with phase := Phase.Terminated, summaries := s.summaries + 1 }
    else none

/-- A run of the lifecycle along a list of events. -/
def Lifecycle.run : Lifecycle → List LifeEvent → Option Lifecycle
  | s, [] => some s
  | s, e :: es =>
    match s.step e with
    | none => none
    | some s2 => Lifecycle.run s2 es

/-! ## Reference quantities of a run -/

/-- The filter of lines 149 and 178: the wallet is kept unless a filter is set
and its address does not contain it. -/
def accepts (cfg : Config) (w : Wallet) : Bool :=
  !(cfg.contain != "" && !Contains w.Address cfg.contain)

/-- The wallets generated by the calls `s, s+1, ..., s+n-1`. -/
def wallets (cfg : Config) (hd : HDWallet) (s n : Nat) : List Wallet :=
  (List.range' s n).map (generateNewWallet hd cfg.bits)

/-- The wallets among `wallets cfg hd s n` that pass the filter. -/
def matched (cfg : Config) (hd : HDWallet) (s n : Nat) : List Wallet :=
  (wallets cfg hd s n).filter (accepts cfg)

/-- The events of one task of the persistence branch. -/
def taskEvents (cfg : Config) (w : Wallet) (call : Nat) : List Event :=
  Event.task call :: (if accepts cfg w then [Event.txCreate w] else [])

/-- The events of the tasks `s, ..., s+n-1` of the persistence branch. -/
def tasksTrace (cfg : Config) (hd : HDWallet) (s n : Nat) : List Event :=
  (List.range' s n).flatMap (fun t => taskEvents cfg (generateNewWallet hd cfg.bits t) t)

/-- The line of the report for one wallet. -/
def recordLine (w : Wallet) : String :=
  Sprintf "%-18s %s\n" [w.Address, w.Mnemonic]

/-- The lines of a report, one after the other. -/
def concatLines : List String → String
  | [] => ""
  | l :: ls => l ++ concatLines ls

/-- The quotient `ceil(n / c)` on natural numbers. -/
def ceilDiv (n c : Nat) : Nat :=
  (n + c - 1) / c

/-- The trace of the stride of the persistence branch that runs the tasks
`s, ..., s+cnt-1`. -/
def dbStrideTrace (cfg : Config) (hd : HDWallet) (s cnt : Nat) : List Event :=
  Event.txBegin :: tasksTrace cfg hd s cnt ++ [Event.wgWait, Event.txCommit]

/-- The trace of the stride of the report branch that runs the tasks
`s, ..., s+cnt-1`. -/
def reportStrideTrace (s cnt : Nat) : List Event :=
  (List.range' s cnt).map Event.task ++ [Event.wgWait]

/-- The strides `0, ..., k-1` of a run of `n` tasks at concurrency `c`: start
index and size `min(c, n - start)`. -/
def strideTable (n c k : Nat) : List (Int × Nat) :=
  (List.range k).map (fun q => (((q * c : Nat) : Int), min c (n - q * c)))

/-- The rows handed to `tx.Create` in a stretch of the trace. -/
def createdIn (tr : List Event) : List Wallet :=
  tr.filterMap (fun e => match e with
    | Event.txCreate w => some w
    | _ => none)

/-- The calls of `generateNewWallet` made by the tasks in a stretch of the trace. -/
def calledIn (tr : List Event) : List Nat :=
  tr.filterMap (fun e => match e with
    | Event.task k => some k
    | _ => none)

/-- The number of lines of a text: its newline characters. -/
def lineCount (s : String) : Nat :=
  s.data.count '\n'

/-- The report text `st.result` consists of the record lines of `ws`, and
`resolvedCount` is their number. -/
def HoldsRecords (st : State) (ws : List Wallet) : Prop :=
  st.result = concatLines (ws.map recordLine) ∧ st.resolvedCount = (ws.length : Int)

/-- The speed printed by the deferred summary of `main` (line 109), on
rationals: resolved wallets per elapsed second. -/
def speed (resolvedCount : Int) (elapsedSeconds : ℚ) : ℚ :=
  (resolvedCount : ℚ) / elapsedSeconds

/-- Following the spec's words, "left-padded to `width` columns": the spaces
stand before the text. -/
def leftPadded (width : Nat) (s : String) : String :=
  Repeat " " (width - s.length) ++ s

/-! ## Loop schemes and invariants -/

/-- A counting loop `for j < C && i+j < N` with an arbitrary body. -/
def loopJ (body : State → State) (C N i : Int) : Nat → Int → State → Option State
  | 0, _, _ => none
  | fuel + 1, j, st =>
    if j < C && i + j < N then loopJ body C N i fuel (j + 1) (body st) else some st

/-- The body of the inner loop of the persistence branch. -/
def dbBody (cfg : Config) (hd : HDWallet) (st : State) : State :=
  dbTask cfg hd { st with launched := st.launched + 1 }

/-- The body of the inner loop of the report branch. -/
def reportBody (cfg : Config) (hd : HDWallet) (st : State) : State :=
  reportTask cfg hd { st with launched := st.launched + 1 }

/-- A striding loop `for i < N; i += C` whose body is `stride`. -/
def loopI (stride : Int → State → Option State) (C N : Int) : Nat → Int → State → Option State
  | 0, _, _ => none
  | fuel + 1, i, st =>
    if i < N then
      match stride i st with
      | none => none
      | some st2 => loopI stride C N fuel (i + C) st2
    else
      some st

/-- One stride of the persistence branch (lines 138-160). -/
def dbStride (cfg : Config) (hd : HDWallet) (limit : Nat) (i : Int) (st : State) :
    Option State :=
  match dbInner cfg hd i limit 0 { dbBegin st with txResolved := 0 } with
  | none => none
  | some st2 => some (dbAfter i st.launched st2)

/-- One stride of the report branch (lines 169-187). -/
def reportStride (cfg : Config) (hd : HDWallet) (limit : Nat) (i : Int) (st : State) :
    Option State :=
  match reportInner cfg hd i limit 0 st with
  | none => none
  | some st2 => some (wgWait i st.launched st2)

/-- The invariant of the outer loop of the persistence branch after `k`
strides; `pre` is the trace before the loop. -/
def DbInv (cfg : Config) (hd : HDWallet) (n c : Nat) (pre : List Event) (k : Nat)
    (st : State) : Prop :=
  st.calls = min (k * c) n ∧ st.launched = min (k * c) n ∧ st.barCurrent = min (k * c) n ∧
  st.resolvedCount = ((matched cfg hd 0 (min (k * c) n)).length : Nat) ∧
  st.strides = strideTable n c k ∧
  st.trace = pre ++ (List.range k).flatMap
    (fun q => dbStrideTrace cfg hd (q * c) (min c (n - q * c))) ∧
  st.rows = (if cfg.isDryrun then [] else matched cfg hd 0 (min (k * c) n)) ∧
  st.pending = [] ∧ st.result = "" ∧ st.stdout = "" ∧ st.barFinished = false

/-- The invariant of the outer loop of the report branch after `k` strides. -/
def ReportInv (cfg : Config) (hd : HDWallet) (n c : Nat) (k : Nat) (st : State) : Prop :=
  st.calls = min (k * c) n ∧ st.launched = min (k * c) n ∧ st.barCurrent = min (k * c) n ∧
  st.resolvedCount = ((matched cfg hd 0 (min (k * c) n)).length : Nat) ∧
  st.strides = strideTable n c k ∧
  st.trace = (List.range k).flatMap (fun q => reportStrideTrace (q * c) (min c (n - q * c))) ∧
  st.result = concatLines ((matched cfg hd 0 (min (k * c) n)).map recordLine) ∧
  st.rows = [] ∧ st.pending = [] ∧ st.stdout = "" ∧ st.barFinished = false

/-- The table header and the separator rule printed before the report. -/
def reportHeader : String :=
  Sprintf "\n%-42s %s\n" ["Address", "Seed"]
    ++ Sprintf "%-42s %s\n" [Repeat "-" 42, Repeat "-" 160]

/-- The trace before the outer loop of the persistence branch. -/
def dbPrelude (cfg : Config) : List Event :=
  if cfg.isDryrun then [] else [Event.migrate]

/-- The invariant of the lifecycle: the summary has been printed once in
`Terminated` and not at all before. -/
def SummaryOnce (s : Lifecycle) : Prop :=
  s.summaries = if s.phase = Phase.Terminated then 1 else 0

/-! ## Sample inputs -/

/-- A derivation oracle for concrete runs: call `k` yields the mnemonic `m<k>`
and the address `0x<mnemonic>`. -/
def sampleHD : HDWallet :=
  { NewMnemonic := fun _ k => "m" ++ toString k
    AddressHex := fun m => "0x" ++ m
    PrivateKeyHex := fun m => "key-" ++ m
    URLPath := fun _ => "m/44/60/0/0/0" }

/-- The flags `-n number -c concurrency -db dbPath -contain contain [-dryrun]`. -/
def sampleConfig (number concurrency : Int) (dbPath contain : String) (isDryrun : Bool) :
    Config :=
  { number := number, dbPath := dbPath, concurrency := concurrency, bits := 256,
    contain := contain, isDryrun := isDryrun }

/-- A wallet with the short address `0xab`. -/
def sampleWallet : Wallet :=
  { Address := "0xab"
    PrivateKey := "key"
    Mnemonic := "seed"
    Bits := 256
    HDPath := "" }

/-! ## Lemmas -/

theorem loopJ_eq (body : State → State) (C N i : Int) :
    ∀ (fuel : Nat) (j : Int) (st : State), (min C (N - i) - j).toNat < fuel →
      loopJ body C N i fuel j st = some (body^[(min C (N - i) - j).toNat] st) := by
  intro fuel
  induction fuel with
  | zero => intro j st h; omega
  | succ fuel ih =>
    intro j st h
    unfold loopJ
    by_cases hg : j < C ∧ i + j < N
    · have h1 : (min C (N - i) - j).toNat = (min C (N - i) - (j + 1)).toNat + 1 := by omega
      have h2 : (min C (N - i) - (j + 1)).toNat < fuel := by omega
      simp only [hg.1, hg.2, decide_True, Bool.and_self, if_true]
      rw [ih (j + 1) (body st) h2, h1, Function.iterate_succ_apply]
    · have h1 : (min C (N - i) - j).toNat = 0 := by omega
      have h3 : (decide (j < C) && decide (i + j < N)) = false := by
        rw [Bool.and_eq_false_iff, decide_eq_false_iff_not, decide_eq_false_iff_not]
        omega
      simp [h3, h1]

theorem dbInner_eq_loopJ (cfg : Config) (hd : HDWallet) (i : Int) :
    ∀ (fuel : Nat) (j : Int) (st : State),
      dbInner cfg hd i fuel j st = loopJ (dbBody cfg hd) cfg.concurrency cfg.number i fuel j st := by
  intro fuel
  induction fuel with
  | zero => intro j st; rfl
  | succ fuel ih => intro j st; simp only [dbInner, loopJ, ih, dbBody]

theorem reportInner_eq_loopJ (cfg : Config) (hd : HDWallet) (i : Int) :
    ∀ (fuel : Nat) (j : Int) (st : State),
      reportInner cfg hd i fuel j st
        = loopJ (reportBody cfg hd) cfg.concurrency cfg.number i fuel j st := by
  intro fuel
  induction fuel with
  | zero => intro j st; rfl
  | succ fuel ih => intro j st; simp only [reportInner, loopJ, ih, reportBody]

theorem matched_succ (cfg : Config) (hd : HDWallet) (s n : Nat) :
    matched cfg hd s (n + 1)
      = (if accepts cfg (generateNewWallet hd cfg.bits s)
          then [generateNewWallet hd cfg.bits s] else []) ++ matched cfg hd (s + 1) n := by
  simp only [matched, wallets, List.range'_succ, List.map_cons, List.filter_cons]
  split <;> simp

theorem tasksTrace_succ (cfg : Config) (hd : HDWallet) (s n : Nat) :
    tasksTrace cfg hd s (n + 1)
      = taskEvents cfg (generateNewWallet hd cfg.bits s) s ++ tasksTrace cfg hd (s + 1) n := by
  simp [tasksTrace, List.range'_succ]

theorem matched_append (cfg : Config) (hd : HDWallet) (s m n : Nat) :
    matched cfg hd s m ++ matched cfg hd (s + m) n = matched cfg hd s (m + n) := by
  simp only [matched, wallets, ← List.filter_append, ← List.map_append]
  rw [Nat.add_comm m n, ← List.range'_append s m n 1, Nat.one_mul]

theorem tasksTrace_append (cfg : Config) (hd : HDWallet) (s m n : Nat) :
    tasksTrace cfg hd s m ++ tasksTrace cfg hd (s + m) n = tasksTrace cfg hd s (m + n) := by
  simp only [tasksTrace, ← List.flatMap_append]
  rw [Nat.add_comm m n, ← List.range'_append s m n 1, Nat.one_mul]

/-- One pass of the persistence body, by the outcome of the filter. -/
theorem dbBody_eq (cfg : Config) (hd : HDWallet) (st : State) :
    dbBody cfg hd st =
      { st with
        launched := st.launched + 1
        calls := st.calls + 1
        barCurrent := st.barCurrent + 1
        txResolved := st.txResolved
          + ((if accepts cfg (generateNewWallet hd cfg.bits st.calls)
              then [generateNewWallet hd cfg.bits st.calls] else []).length : Nat)
        trace := st.trace ++ taskEvents cfg (generateNewWallet hd cfg.bits st.calls) st.calls
        pending := if cfg.isDryrun then st.pending
          else st.pending ++ (if accepts cfg (generateNewWallet hd cfg.bits st.calls)
              then [generateNewWallet hd cfg.bits st.calls] else []) } := by
  unfold dbBody dbTask taskEvents txCreate accepts
  by_cases h : (cfg.contain != "" && !Contains (generateNewWallet hd cfg.bits st.calls).Address
      cfg.contain) = true
  · simp [h]
  · simp only [Bool.not_eq_true] at h
    simp [h]

/-- The state after `n` passes of the persistence body. -/
theorem dbBody_iterate (cfg : Config) (hd : HDWallet) :
    ∀ (n : Nat) (st : State),
      (dbBody cfg hd)^[n] st =
        { st with
          launched := st.launched + n
          calls := st.calls + n
          barCurrent := st.barCurrent + n
          txResolved := st.txResolved + ((matched cfg hd st.calls n).length : Nat)
          trace := st.trace ++ tasksTrace cfg hd st.calls n
          pending := if cfg.isDryrun then st.pending
            else st.pending ++ matched cfg hd st.calls n } := by
  intro n
  induction n with
  | zero => intro st; cases st; simp [matched, wallets, tasksTrace]
  | succ n ih =>
    intro st
    rw [Function.iterate_succ_apply, ih, dbBody_eq, matched_succ, tasksTrace_succ]
    cases hdry : cfg.isDryrun <;>
      simp [Nat.add_assoc, Nat.add_comm 1 n, Int.add_assoc, List.append_assoc]

/-- One pass of the report body, by the outcome of the filter. -/
theorem reportBody_eq (cfg : Config) (hd : HDWallet) (st : State) :
    reportBody cfg hd st =
      { st with
        launched := st.launched + 1
        calls := st.calls + 1
        barCurrent := st.barCurrent + 1
        trace := st.trace ++ [Event.task st.calls]
        resolvedCount := st.resolvedCount
          + ((if accepts cfg (generateNewWallet hd cfg.bits st.calls)
              then [generateNewWallet hd cfg.bits st.calls] else []).length : Nat)
        result := st.result ++ concatLines
          ((if accepts cfg (generateNewWallet hd cfg.bits st.calls)
              then [generateNewWallet hd cfg.bits st.calls] else []).map recordLine)
        barResolved := if accepts cfg (generateNewWallet hd cfg.bits st.calls)
          then "resovled: " ++ toString (st.resolvedCount + 1) else st.barResolved } := by
  unfold reportBody reportTask accepts recordLine
  by_cases h : (cfg.contain != "" && !Contains (generateNewWallet hd cfg.bits st.calls).Address
      cfg.contain) = true
  · simp [h, concatLines]
  · simp only [Bool.not_eq_true] at h
    simp [h, concatLines]

/-- The state after `n` passes of the report body. -/
theorem reportBody_iterate (cfg : Config) (hd : HDWallet) :
    ∀ (n : Nat) (st : State),
      (reportBody cfg hd)^[n] st =
        { st with
          launched := st.launched + n
          calls := st.calls + n
          barCurrent := st.barCurrent + n
          trace := st.trace ++ (List.range' st.calls n).map Event.task
          resolvedCount := st.resolvedCount + ((matched cfg hd st.calls n).length : Nat)
          result := st.result ++ concatLines ((matched cfg hd st.calls n).map recordLine)
          barResolved := if matched cfg hd st.calls n = [] then st.barResolved
            else "resovled: "
              ++ toString (st.resolvedCount + ((matched cfg hd st.calls n).length : Nat)) } := by
  intro n
  induction n with
  | zero => intro st; cases st; simp [matched, wallets, concatLines]
  | succ n ih =>
    intro st
    rw [Function.iterate_succ_apply, ih, reportBody_eq, matched_succ]
    by_cases hacc : accepts cfg (generateNewWallet hd cfg.bits st.calls) = true
    · by_cases hm : matched cfg hd (st.calls + 1) n = []
      · simp [hacc, hm, concatLines, Nat.add_assoc, Nat.add_comm 1 n, List.range'_succ]
      · simp [hacc, hm, concatLines, Nat.add_assoc, Nat.add_comm 1 n, List.range'_succ,
          Int.add_assoc, String.append_assoc, Int.add_comm 1]
    · simp only [Bool.not_eq_true] at hacc
      simp [hacc, concatLines, Nat.add_assoc, Nat.add_comm 1 n, List.range'_succ]

theorem dbOuter_eq_loopI (cfg : Config) (hd : HDWallet) (limit : Nat) :
    ∀ (fuel : Nat) (i : Int) (st : State),
      dbOuter cfg hd limit fuel i st
        = loopI (dbStride cfg hd limit) cfg.concurrency cfg.number fuel i st := by
  intro fuel
  induction fuel with
  | zero => intro i st; rfl
  | succ fuel ih =>
    intro i st
    simp only [dbOuter, loopI, dbStride]
    split
    · cases dbInner cfg hd i limit 0 { dbBegin st with txResolved := 0 } with
      | none => rfl
      | some st2 => simp only [ih]
    · rfl

theorem reportOuter_eq_loopI (cfg : Config) (hd : HDWallet) (limit : Nat) :
    ∀ (fuel : Nat) (i : Int) (st : State),
      reportOuter cfg hd limit fuel i st
        = loopI (reportStride cfg hd limit) cfg.concurrency cfg.number fuel i st := by
  intro fuel
  induction fuel with
  | zero => intro i st; rfl
  | succ fuel ih =>
    intro i st
    simp only [reportOuter, loopI, reportStride]
    split
    · cases reportInner cfg hd i limit 0 st with
      | none => rfl
      | some st2 => simp only [ih]
    · rfl

theorem lt_ceilDiv_iff (n c k : Nat) (hc : 0 < c) : k < ceilDiv n c ↔ k * c < n := by
  unfold ceilDiv
  rw [Nat.lt_iff_add_one_le, Nat.le_div_iff_mul_le hc, Nat.add_mul]
  omega

theorem ceilDiv_le (n c : Nat) (hc : 0 < c) : ceilDiv n c ≤ n := by
  by_contra h
  have h1 : n < ceilDiv n c := by omega
  have h2 := (lt_ceilDiv_iff n c n hc).1 h1
  have h3 : n * 1 ≤ n * c := Nat.mul_le_mul_left n hc
  omega

/-- The rule for the striding loop: an invariant indexed by the number of
finished strides holds at `ceilDiv n c` when the loop returns, and the loop
returns as soon as the fuel exceeds the number of strides left. -/
theorem loopI_spec (stride : Int → State → Option State) (n c : Nat) (hc : 0 < c)
    (Inv : Nat → State → Prop)
    (hstep : ∀ (k : Nat) (st : State), k * c < n → Inv k st →
      ∃ st2, stride ((k * c : Nat) : Int) st = some st2 ∧ Inv (k + 1) st2) :
    ∀ (fuel k : Nat) (st : State), Inv k st → k ≤ ceilDiv n c → ceilDiv n c - k < fuel →
      ∃ st2, loopI stride (c : Int) (n : Int) fuel ((k * c : Nat) : Int) st = some st2
        ∧ Inv (ceilDiv n c) st2 := by
  intro fuel
  induction fuel with
  | zero => intro k st _ _ h; omega
  | succ fuel ih =>
    intro k st hinv hk hfuel
    unfold loopI
    by_cases hlt : k * c < n
    · have hi : ((k * c : Nat) : Int) < (n : Int) := by omega
      obtain ⟨st2, hs, hinv2⟩ := hstep k st hlt hinv
      have hk1 : k < ceilDiv n c := (lt_ceilDiv_iff n c k hc).2 hlt
      have hnext : ((k * c : Nat) : Int) + (c : Int) = (((k + 1) * c : Nat) : Int) := by
        rw [Nat.add_mul]; push_cast; omega
      simp only [hi, if_true, hs, hnext]
      exact ih (k + 1) st2 hinv2 (by omega) (by omega)
    · have hi : ¬ (((k * c : Nat) : Int) < (n : Int)) := by omega
      have hk1 : ¬ k < ceilDiv n c := fun h => hlt ((lt_ceilDiv_iff n c k hc).1 h)
      have hke : k = ceilDiv n c := by omega
      simp only [hi, if_false]
      exact ⟨st, rfl, hke ▸ hinv⟩

theorem dbStride_eq (cfg : Config) (hd : HDWallet) (n c p limit : Nat)
    (hN : cfg.number = (n : Int)) (hC : cfg.concurrency = (c : Int))
    (hl : min c (n - p) < limit) (st : State) :
    dbStride cfg hd limit (p : Int) st
      = some (dbAfter (p : Int) st.launched
          ((dbBody cfg hd)^[min c (n - p)] { dbBegin st with txResolved := 0 })) := by
  have hcnt : (min (c : Int) ((n : Int) - (p : Int)) - 0).toNat = min c (n - p) := by omega
  unfold dbStride
  rw [dbInner_eq_loopJ, hN, hC, loopJ_eq _ _ _ _ _ _ _ (by omega), hcnt]

theorem reportStride_eq (cfg : Config) (hd : HDWallet) (n c p limit : Nat)
    (hN : cfg.number = (n : Int)) (hC : cfg.concurrency = (c : Int))
    (hl : min c (n - p) < limit) (st : State) :
    reportStride cfg hd limit (p : Int) st
      = some (wgWait (p : Int) st.launched ((reportBody cfg hd)^[min c (n - p)] st)) := by
  have hcnt : (min (c : Int) ((n : Int) - (p : Int)) - 0).toNat = min c (n - p) := by omega
  unfold reportStride
  rw [reportInner_eq_loopJ, hN, hC, loopJ_eq _ _ _ _ _ _ _ (by omega), hcnt]

theorem strideTable_succ (n c k : Nat) :
    strideTable n c (k + 1) = strideTable n c k ++ [(((k * c : Nat) : Int), min c (n - k * c))] := by
  simp [strideTable, List.range_succ]

theorem DbInv_step (cfg : Config) (hd : HDWallet) (n c limit : Nat) (pre : List Event)
    (hN : cfg.number = (n : Int)) (hC : cfg.concurrency = (c : Int)) (hl : n < limit)
    (k : Nat) (st : State) (hlt : k * c < n) (hinv : DbInv cfg hd n c pre k st) :
    ∃ st2, dbStride cfg hd limit ((k * c : Nat) : Int) st = some st2
      ∧ DbInv cfg hd n c pre (k + 1) st2 := by
  obtain ⟨h1, h2, h3, h4, h5, h6, h7, h8, h9, h10, h11⟩ := hinv
  refine ⟨_, dbStride_eq cfg hd n c (k * c) limit hN hC (by omega) st, ?_⟩
  have hm : min (k * c) n = k * c := by omega
  have hm2 : min ((k + 1) * c) n = k * c + min c (n - k * c) := by
    rw [Nat.add_mul]; omega
  rw [hm] at h1 h2 h3 h4 h7
  rw [dbBody_iterate]
  simp only [DbInv, dbAfter, wgWait, txCommit, dbBegin, hm2, h1, h2, h3, h4, h5, h6, h7, h8,
    h9, h10, h11, strideTable_succ, List.range_succ, List.flatMap_append, dbStrideTrace]
  have happ := matched_append cfg hd 0 (k * c) (min c (n - k * c))
  rw [Nat.zero_add] at happ
  refine ⟨trivial, trivial, trivial, ?_, ?_, ?_, ?_, trivial, trivial, trivial, trivial⟩
  · rw [← happ]; simp
  · simp
  · simp
  · cases cfg.isDryrun <;> simp [happ]

theorem concatLines_append (a b : List String) :
    concatLines (a ++ b) = concatLines a ++ concatLines b := by
  induction a with
  | nil => simp [concatLines]
  | cons x xs ih => simp [concatLines, ih, String.append_assoc]

theorem ReportInv_step (cfg : Config) (hd : HDWallet) (n c limit : Nat)
    (hN : cfg.number = (n : Int)) (hC : cfg.concurrency = (c : Int)) (hl : n < limit)
    (k : Nat) (st : State) (hlt : k * c < n) (hinv : ReportInv cfg hd n c k st) :
    ∃ st2, reportStride cfg hd limit ((k * c : Nat) : Int) st = some st2
      ∧ ReportInv cfg hd n c (k + 1) st2 := by
  obtain ⟨h1, h2, h3, h4, h5, h6, h7, h8, h9, h10, h11⟩ := hinv
  refine ⟨_, reportStride_eq cfg hd n c (k * c) limit hN hC (by omega) st, ?_⟩
  have hm : min (k * c) n = k * c := by omega
  have hm2 : min ((k + 1) * c) n = k * c + min c (n - k * c) := by
    rw [Nat.add_mul]; omega
  rw [hm] at h1 h2 h3 h4 h7
  rw [reportBody_iterate]
  simp only [ReportInv, wgWait, hm2, h1, h2, h3, h4, h5, h6, h7, h8, h9, h10, h11,
    strideTable_succ, List.range_succ, List.flatMap_append, reportStrideTrace]
  have happ := matched_append cfg hd 0 (k * c) (min c (n - k * c))
  rw [Nat.zero_add] at happ
  refine ⟨trivial, trivial, trivial, ?_, ?_, ?_, ?_, trivial, trivial, trivial, trivial⟩
  · rw [← happ]; simp
  · simp
  · simp
  · rw [← happ, List.map_append, concatLines_append]

theorem ceilDiv_mul_ge (n c : Nat) (hc : 0 < c) : min (ceilDiv n c * c) n = n := by
  have h : ¬ ceilDiv n c * c < n := fun h =>
    Nat.lt_irrefl _ ((lt_ceilDiv_iff n c (ceilDiv n c) hc).2 h)
  omega

/-- The outer loop of the persistence branch returns once the fuel exceeds
`n`, in a state described by the invariant at `ceilDiv n c`. -/
theorem dbOuter_spec (cfg : Config) (hd : HDWallet) (n c fuel : Nat)
    (hN : cfg.number = (n : Int)) (hC : cfg.concurrency = (c : Int)) (hc : 1 ≤ c)
    (hf : n < fuel) (st : State) (hinit : DbInv cfg hd n c st.trace 0 st) :
    ∃ st2, dbOuter cfg hd fuel fuel 0 st = some st2
      ∧ DbInv cfg hd n c st.trace (ceilDiv n c) st2 := by
  have hle := ceilDiv_le n c hc
  have h := loopI_spec (dbStride cfg hd fuel) n c hc (DbInv cfg hd n c st.trace)
    (fun k s hlt hinv => DbInv_step cfg hd n c fuel st.trace hN hC hf k s hlt hinv)
    fuel 0 st hinit (Nat.zero_le _) (by omega)
  rw [dbOuter_eq_loopI, hN, hC]
  simpa using h

/-- The outer loop of the report branch returns once the fuel exceeds `n`, in
a state described by the invariant at `ceilDiv n c`. -/
theorem reportOuter_spec (cfg : Config) (hd : HDWallet) (n c fuel : Nat)
    (hN : cfg.number = (n : Int)) (hC : cfg.concurrency = (c : Int)) (hc : 1 ≤ c)
    (hf : n < fuel) :
    ∃ st2, reportOuter cfg hd fuel fuel 0 State.init = some st2
      ∧ ReportInv cfg hd n c (ceilDiv n c) st2 := by
  have hle := ceilDiv_le n c hc
  have hinit : ReportInv cfg hd n c 0 State.init := by
    simp [ReportInv, State.init, matched, wallets, strideTable, concatLines]
  have h := loopI_spec (reportStride cfg hd fuel) n c hc (ReportInv cfg hd n c)
    (fun k s hlt hinv => ReportInv_step cfg hd n c fuel hN hC hf k s hlt hinv)
    fuel 0 State.init hinit (Nat.zero_le _) (by omega)
  rw [reportOuter_eq_loopI, hN, hC]
  simpa using h

/-- The run of the persistence branch: the worker returns once the fuel
exceeds `n`, in a state described field by field. -/
theorem worker_db_spec (cfg : Config) (hd : HDWallet) (n c fuel : Nat)
    (hN : cfg.number = (n : Int)) (hC : cfg.concurrency = (c : Int)) (hc : 1 ≤ c)
    (hf : n < fuel) (hdb : cfg.dbPath ≠ "") :
    ∃ st, worker cfg hd fuel = some st ∧ st.calls = n ∧ st.launched = n ∧
      st.resolvedCount = ((matched cfg hd 0 n).length : Nat) ∧
      st.strides = strideTable n c (ceilDiv n c) ∧
      st.trace = dbPrelude cfg ++ (List.range (ceilDiv n c)).flatMap
        (fun q => dbStrideTrace cfg hd (q * c) (min c (n - q * c))) ∧
      st.rows = (if cfg.isDryrun then [] else matched cfg hd 0 n) ∧
      st.pending = [] ∧ st.result = "" ∧ st.stdout = "" := by
  have hb : (cfg.dbPath != "") = true := by simpa using hdb
  have hpre : (if (!cfg.isDryrun) = true
      then { State.init with trace := State.init.trace ++ [Event.migrate] }
      else State.init) = { State.init with trace := dbPrelude cfg } := by
    cases hdry : cfg.isDryrun <;> simp [dbPrelude, hdry, State.init]
  have hinit : DbInv cfg hd n c (dbPrelude cfg) 0 { State.init with trace := dbPrelude cfg } := by
    simp [DbInv, State.init, matched, wallets, strideTable]
  obtain ⟨st2, hrun, h1, h2, _, h4, h5, h6, h7, h8, h9, h10, _⟩ :=
    dbOuter_spec cfg hd n c fuel hN hC hc hf { State.init with trace := dbPrelude cfg } hinit
  rw [ceilDiv_mul_ge n c hc] at h1 h2 h4 h7
  refine ⟨{ st2 with barFinished := true }, ?_, h1, h2, h4, h5, h6, h7, h8, h9, h10⟩
  unfold worker
  simp only [hb, if_true, hpre, hrun]

/-- The run of the report branch: the worker returns once the fuel exceeds
`n`, in a state described field by field. -/
theorem worker_report_spec (cfg : Config) (hd : HDWallet) (n c fuel : Nat)
    (hN : cfg.number = (n : Int)) (hC : cfg.concurrency = (c : Int)) (hc : 1 ≤ c)
    (hf : n < fuel) (hdb : cfg.dbPath = "") :
    ∃ st, worker cfg hd fuel = some st ∧ st.calls = n ∧ st.launched = n ∧
      st.resolvedCount = ((matched cfg hd 0 n).length : Nat) ∧
      st.strides = strideTable n c (ceilDiv n c) ∧
      st.trace = (List.range (ceilDiv n c)).flatMap
        (fun q => reportStrideTrace (q * c) (min c (n - q * c))) ∧
      st.result = concatLines ((matched cfg hd 0 n).map recordLine) ∧
      st.rows = [] ∧ st.pending = [] ∧
      st.stdout = (if cfg.isDryrun then "" else reportHeader ++ st.result ++ "\n") := by
  have hb : (cfg.dbPath != "") = false := by simp [hdb]
  obtain ⟨st2, hrun, h1, h2, _, h4, h5, h6, h7, h8, h9, h10, _⟩ :=
    reportOuter_spec cfg hd n c fuel hN hC hc hf
  rw [ceilDiv_mul_ge n c hc] at h1 h2 h4 h7
  cases hdry : cfg.isDryrun with
  | true =>
    refine ⟨{ st2 with barFinished := true }, ?_, h1, h2, h4, h5, h6, h7, h8, h9, ?_⟩
    · unfold worker
      simp [hb, hrun, hdry]
    · simpa using h10
  | false =>
    refine ⟨{ st2 with barFinished := true, stdout := reportHeader ++ st2.result ++ "\n" },
      ?_, h1, h2, h4, h5, h6, h7, h8, h9, ?_⟩
    · unfold worker
      simp [hb, hrun, hdry, h10, reportHeader, String.append_assoc]
    · simp

theorem ceilDiv_eq_ceil (n c : Nat) (hc : 0 < c) : ceilDiv n c = ⌈(n : ℚ) / (c : ℚ)⌉₊ := by
  apply eq_of_forall_ge_iff
  intro k
  have hcq : (0 : ℚ) < (c : ℚ) := by exact_mod_cast hc
  rw [Nat.ceil_le, div_le_iff₀ hcq]
  have h1 : ceilDiv n c ≤ k ↔ n ≤ k * c := by
    have := lt_ceilDiv_iff n c k hc
    constructor
    · intro h; by_contra h2; omega
    · intro h; by_contra h2; omega
  rw [h1]
  exact_mod_cast Iff.rfl

theorem hasPrefixOf_iff (s p : List Char) : hasPrefixOf s p = true ↔ p <+: s := by
  induction s generalizing p with
  | nil => cases p <;> simp [hasPrefixOf]
  | cons c s ih =>
    cases p with
    | nil => simp [hasPrefixOf]
    | cons d p =>
      simp only [hasPrefixOf, Bool.and_eq_true, beq_iff_eq, ih, List.cons_prefix_cons]
      exact ⟨fun h => ⟨h.1.symm, h.2⟩, fun h => ⟨h.1.symm, h.2⟩⟩

theorem containsChars_iff (s sub : List Char) : containsChars s sub = true ↔ sub <:+: s := by
  induction s with
  | nil => simp [containsChars, hasPrefixOf_iff]
  | cons c s ih => simp [containsChars, hasPrefixOf_iff, ih, List.infix_cons_iff]

theorem Contains_empty (s : String) : Contains s "" = true := by
  unfold Contains
  rw [containsChars_iff]
  exact List.nil_infix

theorem accepts_eq (cfg : Config) (w : Wallet) : accepts cfg w = Contains w.Address cfg.contain := by
  unfold accepts
  by_cases h : cfg.contain = ""
  · simp [h, Contains_empty]
  · simp [h]

theorem strideTable_length (n c k : Nat) : (strideTable n c k).length = k := by
  simp [strideTable]

theorem strideTable_sum (n c k : Nat) :
    ((strideTable n c k).map Prod.snd).sum = min (k * c) n := by
  induction k with
  | zero => simp [strideTable]
  | succ k ih =>
    rw [strideTable_succ, List.map_append, List.sum_append, ih, Nat.add_mul]
    simp
    omega

theorem strideTable_mem (n c k : Nat) (e : Int × Nat) (he : e ∈ strideTable n c k) :
    ∃ q, q < k ∧ e = (((q * c : Nat) : Int), min c (n - q * c)) := by
  simp only [strideTable, List.mem_map, List.mem_range] at he
  obtain ⟨q, hq, rfl⟩ := he
  exact ⟨q, hq, rfl⟩

/-- Both branches: the worker returns once the fuel exceeds `n`, having
launched `n` tasks in the strides of `strideTable`, with one resolved wallet
per generated wallet that passes the filter. -/
theorem worker_spec (cfg : Config) (hd : HDWallet) (n c fuel : Nat)
    (hN : cfg.number = (n : Int)) (hC : cfg.concurrency = (c : Int)) (hc : 1 ≤ c)
    (hf : n < fuel) :
    ∃ st, worker cfg hd fuel = some st ∧ st.calls = n ∧ st.launched = n ∧
      st.resolvedCount = ((matched cfg hd 0 n).length : Nat) ∧
      st.strides = strideTable n c (ceilDiv n c) := by
  by_cases hdb : cfg.dbPath = ""
  · obtain ⟨st, h0, h1, h2, h3, h4, _⟩ := worker_report_spec cfg hd n c fuel hN hC hc hf hdb
    exact ⟨st, h0, h1, h2, h3, h4⟩
  · obtain ⟨st, h0, h1, h2, h3, h4, _⟩ := worker_db_spec cfg hd n c fuel hN hC hc hf hdb
    exact ⟨st, h0, h1, h2, h3, h4⟩

theorem createdIn_tasksTrace (cfg : Config) (hd : HDWallet) (s k : Nat) :
    createdIn (tasksTrace cfg hd s k) = matched cfg hd s k := by
  induction k generalizing s with
  | zero => simp [tasksTrace, matched, wallets, createdIn]
  | succ k ih =>
    rw [tasksTrace_succ, matched_succ, ← ih (s + 1)]
    unfold createdIn taskEvents
    split <;> simp [List.filterMap_append, List.filterMap_cons]

theorem calledIn_tasksTrace (cfg : Config) (hd : HDWallet) (s k : Nat) :
    calledIn (tasksTrace cfg hd s k) = List.range' s k := by
  induction k generalizing s with
  | zero => simp [tasksTrace, calledIn]
  | succ k ih =>
    rw [tasksTrace_succ, List.range'_succ, ← ih (s + 1)]
    unfold calledIn taskEvents
    split <;> simp [List.filterMap_append, List.filterMap_cons]

theorem tasksTrace_mem (cfg : Config) (hd : HDWallet) (s k : Nat) (e : Event)
    (he : e ∈ tasksTrace cfg hd s k) : (∃ t, e = Event.task t) ∨ ∃ w, e = Event.txCreate w := by
  simp only [tasksTrace, List.mem_flatMap, taskEvents, List.mem_cons] at he
  obtain ⟨t, _, h | h⟩ := he
  · exact Or.inl ⟨t, h⟩
  · split at h
    · simp only [List.mem_singleton] at h
      exact Or.inr ⟨_, h⟩
    · simp at h

theorem count_dbStrides (cfg : Config) (hd : HDWallet) (n c k : Nat) (e : Event)
    (he : e = Event.txBegin ∨ e = Event.txCommit) :
    ((List.range k).flatMap
      (fun q => dbStrideTrace cfg hd (q * c) (min c (n - q * c)))).count e = k := by
  have hz : ∀ s m, (tasksTrace cfg hd s m).count e = 0 := by
    intro s m
    apply List.count_eq_zero_of_not_mem
    intro hmem
    rcases tasksTrace_mem cfg hd s m e hmem with ⟨t, ht⟩ | ⟨w, hw⟩ <;>
      rcases he with he | he <;> simp_all
  induction k with
  | zero => simp
  | succ k ih =>
    rw [List.range_succ, List.flatMap_append, List.count_append, ih]
    rcases he with he | he <;> subst he <;>
      simp [dbStrideTrace, List.count_cons, List.count_append, hz]

theorem loopI_zero_stride (stride : Int → State → Option State) (N : Int) :
    ∀ (fuel : Nat) (i : Int) (st : State), i < N → loopI stride 0 N fuel i st = none := by
  intro fuel
  induction fuel with
  | zero => intro i st _; rfl
  | succ fuel ih =>
    intro i st hi
    unfold loopI
    simp only [hi, if_true, Int.add_zero]
    cases stride i st with
    | none => rfl
    | some st2 => exact ih i st2 hi

/-- With `number ≤ 0` the worker returns on any positive fuel without a
stride, a task or a resolved wallet, whatever the concurrency. -/
theorem worker_of_number_nonpos (cfg : Config) (hd : HDWallet) (fuel : Nat)
    (hN : cfg.number ≤ 0) :
    ∃ st, worker cfg hd (fuel + 1) = some st ∧ st.launched = 0 ∧ st.calls = 0 ∧
      st.strides = [] ∧ st.resolvedCount = 0 := by
  have hlt : ¬ ((0 : Int) < cfg.number) := by omega
  unfold worker
  by_cases hdb : (cfg.dbPath != "") = true
  · cases hdry : cfg.isDryrun <;> simp [hdb, dbOuter, hlt, State.init]
  · simp only [Bool.not_eq_true] at hdb
    cases hdry : cfg.isDryrun <;> simp [hdb, reportOuter, hlt, State.init]

theorem SummaryOnce_step (s s2 : Lifecycle) (e : LifeEvent) (h : SummaryOnce s)
    (hs : s.step e = some s2) : SummaryOnce s2 := by
  obtain ⟨phase, interrupt, workerSent, summaries⟩ := s
  cases e <;> cases phase <;> cases interrupt <;> cases workerSent <;>
    simp [Lifecycle.step] at hs <;> subst hs <;> simp_all [SummaryOnce]

theorem SummaryOnce_run (evs : List LifeEvent) :
    ∀ (s s2 : Lifecycle), SummaryOnce s → Lifecycle.run s evs = some s2 → SummaryOnce s2 := by
  induction evs with
  | nil =>
    intro s s2 h hr
    simp only [Lifecycle.run, Option.some.injEq] at hr
    exact hr ▸ h
  | cons e es ih =>
    intro s s2 h hr
    unfold Lifecycle.run at hr
    cases hstep : s.step e with
    | none => simp [hstep] at hr
    | some s1 =>
      simp only [hstep] at hr
      exact ih s1 s2 (SummaryOnce_step s s1 e h hstep) hr

theorem Repeat_length (k : Nat) : (Repeat " " k).length = k := by
  induction k with
  | zero => rfl
  | succ k ih =>
    rw [Repeat, String.length_append, ih]
    simp only [String.length, List.length_singleton]
    omega

theorem recordLine_eq (w : Wallet) :
    recordLine w
      = w.Address ++ Repeat " " (18 - w.Address.length) ++ " " ++ w.Mnemonic ++ "\n" := by
  have hp : parseFormat ("%-18s %s\n".length + 1) "%-18s %s\n".data
      = [Directive.str true 18, Directive.lit ' ', Directive.str false 0,
          Directive.lit '\n'] := by decide
  have h0 : ∀ k, Repeat " " (0 - k) = "" := by intro k; simp [Repeat]
  have h1 : String.singleton ' ' = " " := rfl
  have h2 : String.singleton '\n' = "\n" := rfl
  simp only [recordLine, Sprintf, hp, render, pad, h0, if_true]
  simp [String.append_assoc, h1, h2]

theorem lineCount_append (a b : String) : lineCount (a ++ b) = lineCount a + lineCount b := by
  simp [lineCount, String.data_append, List.count_append]

theorem lineCount_Repeat (k : Nat) : lineCount (Repeat " " k) = 0 := by
  induction k with
  | zero => rfl
  | succ k ih =>
    rw [Repeat, lineCount_append, ih]
    rfl

theorem lineCount_recordLine (w : Wallet) (ha : '\n' ∉ w.Address.data)
    (hm : '\n' ∉ w.Mnemonic.data) : lineCount (recordLine w) = 1 := by
  have h1 : lineCount w.Address = 0 := List.count_eq_zero_of_not_mem ha
  have h2 : lineCount w.Mnemonic = 0 := List.count_eq_zero_of_not_mem hm
  have h3 : lineCount " " = 0 := rfl
  have h4 : lineCount "\n" = 1 := rfl
  rw [recordLine_eq]
  simp only [lineCount_append, lineCount_Repeat, h1, h2, h3, h4]

theorem lineCount_concatLines (ws : List Wallet)
    (h : ∀ w ∈ ws, '\n' ∉ w.Address.data ∧ '\n' ∉ w.Mnemonic.data) :
    lineCount (concatLines (ws.map recordLine)) = ws.length := by
  induction ws with
  | nil => rfl
  | cons w ws ih =>
    have hw := h w (List.mem_cons_self _ _)
    simp only [List.map_cons, concatLines, lineCount_append, List.length_cons,
      lineCount_recordLine w hw.1 hw.2, ih (fun x hx => h x (List.mem_cons_of_mem _ hx))]
    omega

/-! ## The run with the goroutines taken in turn -/

/-- With the goroutines of a stride taken one after another (as for `-c 1`),
for every `n ≥ 0` and `c ≥ 1` a dry run without filter, with or without a
persistence path, returns having printed no report text (standard
output of the worker is empty: no header, no separator, no record line) and
having made no row durable nor left one pending, without schema migration,
while `resolvedCount` is `n`. -/
theorem sequential_dry_run_counts_without_output (cfg : Config) (hd : HDWallet) (n c fuel : Nat)
    (hN : cfg.number = (n : Int)) (hC : cfg.concurrency = (c : Int)) (hc : 1 ≤ c)
    (hf : n < fuel) (hdry : cfg.isDryrun = true) (hS : cfg.contain = "") :
    ∃ st, worker cfg hd fuel = some st ∧ st.stdout = "" ∧ st.rows = [] ∧ st.pending = [] ∧
      Event.migrate ∉ st.trace ∧ st.resolvedCount = (n : Int) := by
  have hall : matched cfg hd 0 n = wallets cfg hd 0 n := by
    unfold matched
    rw [List.filter_eq_self]
    intro w _
    rw [accepts_eq, hS, Contains_empty]
  have hlen : (wallets cfg hd 0 n).length = n := by simp [wallets]
  by_cases hdb : cfg.dbPath = ""
  · obtain ⟨st, h0, _, _, h3, _, h5, _, h7, h8, h9⟩ :=
      worker_report_spec cfg hd n c fuel hN hC hc hf hdb
    refine ⟨st, h0, ?_, h7, h8, ?_, ?_⟩
    · simpa [hdry] using h9
    · rw [h5]
      simp [reportStrideTrace]
    · rw [h3, hall, hlen]
  · obtain ⟨st, h0, _, _, h3, _, h5, h6, h7, _, h9⟩ :=
      worker_db_spec cfg hd n c fuel hN hC hc hf hdb
    refine ⟨st, h0, h9, ?_, h7, ?_, ?_⟩
    · simpa [hdry] using h6
    · rw [h5]
      simp only [dbPrelude, hdry, if_true, List.nil_append, List.mem_flatMap, not_exists, not_and]
      intro q _ hmem
      simp only [dbStrideTrace, List.mem_cons, List.mem_append, List.mem_singleton] at hmem
      rcases hmem with (h | h) | h | h | h
      · cases h
      · rcases tasksTrace_mem cfg hd _ _ _ h with ⟨t, ht⟩ | ⟨w, hw⟩
        · cases ht
        · cases hw
      · cases h
      · cases h
      · cases h
    · rw [h3, hall, hlen]

/-- With the goroutines of a stride taken one after another (as for `-c 1`),
in the report branch, for every `n ≥ 0`, `c ≥ 1` and filter, the report text consists of exactly `resolvedCount` record lines, one per matching
wallet: this holds when the worker starts, is kept by every task (which adds
the line of its wallet exactly when the wallet passes the filter) and by every
barrier, and at the end of the run the lines are those of the matching wallets
in launch order, so that the text has `resolvedCount` lines when no address
and no mnemonic holds a newline. Without filter they are the lines of all `n`
wallets, and outside dry-run mode the printed report is the header, these
lines and a newline. -/
theorem sequential_report_holds_resolvedCount_lines (cfg : Config) (hd : HDWallet) (n c fuel : Nat)
    (hN : cfg.number = (n : Int)) (hC : cfg.concurrency = (c : Int)) (hc : 1 ≤ c)
    (hf : n < fuel) (hdb : cfg.dbPath = "") :
    HoldsRecords State.init [] ∧
    (∀ st ws, HoldsRecords st ws →
      HoldsRecords (reportTask cfg hd { st with launched := st.launched + 1 })
        (ws ++ (if accepts cfg (generateNewWallet hd cfg.bits st.calls)
          then [generateNewWallet hd cfg.bits st.calls] else []))) ∧
    (∀ st ws i before, HoldsRecords st ws → HoldsRecords (wgWait i before st) ws) ∧
    ∃ st, worker cfg hd fuel = some st ∧ HoldsRecords st (matched cfg hd 0 n) ∧
      ((∀ w ∈ wallets cfg hd 0 n, '\n' ∉ w.Address.data ∧ '\n' ∉ w.Mnemonic.data) →
        (lineCount st.result : Int) = st.resolvedCount) ∧
      (cfg.contain = "" →
        matched cfg hd 0 n = wallets cfg hd 0 n ∧ (wallets cfg hd 0 n).length = n ∧
        st.resolvedCount = (n : Int)) ∧
      (cfg.isDryrun = false →
        st.stdout = reportHeader ++ concatLines ((matched cfg hd 0 n).map recordLine) ++ "\n") := by
  refine ⟨?_, ?_, ?_, ?_⟩
  · simp [HoldsRecords, State.init, concatLines]
  · intro st ws h
    obtain ⟨h1, h2⟩ := h
    have hb := reportBody_eq cfg hd st
    unfold reportBody at hb
    rw [hb]
    constructor
    · simp only [List.map_append, concatLines_append, h1]
    · simp only [List.length_append, h2]
      push_cast
      rfl
  · intro st ws i before h
    exact h
  · obtain ⟨st, h0, _, _, h3, _, _, h6, _, _, h9⟩ :=
      worker_report_spec cfg hd n c fuel hN hC hc hf hdb
    have hlen : (wallets cfg hd 0 n).length = n := by simp [wallets]
    refine ⟨st, h0, ⟨h6, h3⟩, ?_, ?_, ?_⟩
    · intro hclean
      rw [h6, h3, lineCount_concatLines]
      intro w hw
      exact hclean w (List.mem_of_mem_filter hw)
    · intro hS
      have hall : matched cfg hd 0 n = wallets cfg hd 0 n := by
        unfold matched
        rw [List.filter_eq_self]
        intro w _
        rw [accepts_eq, hS, Contains_empty]
      exact ⟨hall, hlen, by rw [h3, hall, hlen]⟩
    · intro hdry
      rw [h9, h6]
      simp [hdry]

/-! ## Concrete runs -/

theorem sample_run_report :
    (worker (sampleConfig 5 2 "" "1" false) sampleHD 6).map
        (fun st => (st.resolvedCount, st.launched, st.strides, st.result))
      = some (1, 5, [(0, 2), (2, 2), (4, 1)], "0xm1               m1\n") := by
  decide

theorem sample_run_persistence :
    (worker (sampleConfig 3 2 "wallets.db" "" false) sampleHD 4).map
        (fun st => (st.resolvedCount, st.trace.count Event.txCommit,
          st.rows.map (fun w => w.Address)))
      = some (3, 2, ["0xm0", "0xm1", "0xm2"]) := by
  decide

theorem sample_run_single_stride :
    (worker (sampleConfig 2 5 "" "" true) sampleHD 3).map
        (fun st => (st.resolvedCount, st.strides, st.stdout))
      = some (2, [(0, 2)], "") := by
  decide

theorem sample_run_out_of_fuel :
    worker (sampleConfig 5 2 "" "" false) sampleHD 3 = none := by
  decide

theorem sample_racy_run_in_turn :
    (workerRacy (sampleConfig 2 2 "" "" false) sampleHD
        [[0, 0, 0, 0, 0, 0, 1, 1, 1, 1, 1, 1]]).map
        (fun st => (st.resolvedCount, st.launched, st.strides, st.result))
      = (worker (sampleConfig 2 2 "" "" false) sampleHD 3).map
        (fun st => (st.resolvedCount, st.launched, st.strides, st.result)) := by
  decide

theorem sample_racy_run_persistence_in_turn :
    (workerRacy (sampleConfig 3 2 "wallets.db" "" false) sampleHD
        [[0, 0, 0, 0, 1, 1, 1, 1], [0, 0, 0, 0]]).map
        (fun st => (st.resolvedCount, st.launched, st.strides, st.trace))
      = (worker (sampleConfig 3 2 "wallets.db" "" false) sampleHD 4).map
        (fun st => (st.resolvedCount, st.launched, st.strides, st.trace)) := by
  decide

theorem sample_racy_run_unfinished :
    workerRacy (sampleConfig 2 2 "" "" false) sampleHD [[0, 0, 0, 0, 0, 0, 1]] = none := by
  decide

/-! ## The claims -/

/-- C1: for every total count `n ≥ 0` and concurrency `c ≥ 1`, in the
persistence branch and in the report branch alike (any `dbPath`), the worker
returns once the fuel exceeds `n`, having launched exactly `n` tasks, which
are grouped into exactly `ceil(n / c)` strides whose sizes add up to `n`, each
stride holding at most `c` tasks. -/
theorem C1_launches_n_tasks_in_ceil_strides (cfg : Config) (hd : HDWallet) (n c fuel : Nat)
    (hN : cfg.number = (n : Int)) (hC : cfg.concurrency = (c : Int)) (hc : 1 ≤ c)
    (hf : n < fuel) :
    ∃ st, worker cfg hd fuel = some st ∧ st.launched = n ∧ st.calls = n ∧
      (st.strides.map Prod.snd).sum = n ∧
      st.strides.length = ⌈(n : ℚ) / (c : ℚ)⌉₊ ∧
      ∀ e ∈ st.strides, e.2 ≤ c := by
  obtain ⟨st, h0, h1, h2, _, h4⟩ := worker_spec cfg hd n c fuel hN hC hc hf
  refine ⟨st, h0, h2, h1, ?_, ?_, ?_⟩
  · rw [h4, strideTable_sum, ceilDiv_mul_ge n c hc]
  · rw [h4, strideTable_length, ceilDiv_eq_ceil n c hc]
  · intro e he
    rw [h4] at he
    obtain ⟨q, _, rfl⟩ := strideTable_mem n c _ e he
    exact Nat.min_le_left _ _

/-- C1 at `-n 5 -c 2`, in the persistence branch. -/
theorem C1_witness :
    ∃ st, worker (sampleConfig 5 2 "wallets.db" "" false) sampleHD 6 = some st ∧
      st.launched = 5 ∧ st.calls = 5 ∧ (st.strides.map Prod.snd).sum = 5 ∧
      st.strides.length = ⌈((5 : Nat) : ℚ) / ((2 : Nat) : ℚ)⌉₊ ∧
      ∀ e ∈ st.strides, e.2 ≤ 2 :=
  C1_launches_n_tasks_in_ceil_strides (sampleConfig 5 2 "wallets.db" "" false) sampleHD 5 2 6
    rfl rfl (by decide) (by decide)

/-- C2: for every `n ≥ 0`, `c ≥ 1`, filter `S = cfg.contain` and derivation
oracle, in either branch the worker returns with `resolvedCount` equal to the
number of the `n` generated wallets whose address has `S` as a contiguous
(case-sensitive) substring; it is `n` when `S` is empty and `0` when `S`
occurs in no generated address. -/
theorem C2_resolvedCount_counts_matches (cfg : Config) (hd : HDWallet) (n c fuel : Nat)
    (hN : cfg.number = (n : Int)) (hC : cfg.concurrency = (c : Int)) (hc : 1 ≤ c)
    (hf : n < fuel) :
    ∃ st, worker cfg hd fuel = some st ∧ (wallets cfg hd 0 n).length = n ∧
      st.resolvedCount = (((wallets cfg hd 0 n).countP
        (fun w => decide (cfg.contain.data <:+: w.Address.data)) : Nat) : Int) ∧
      (cfg.contain = "" → st.resolvedCount = (n : Int)) ∧
      ((∀ w ∈ wallets cfg hd 0 n, ¬ cfg.contain.data <:+: w.Address.data) →
        st.resolvedCount = 0) := by
  obtain ⟨st, h0, _, _, h3, _⟩ := worker_spec cfg hd n c fuel hN hC hc hf
  have hlen : (wallets cfg hd 0 n).length = n := by simp [wallets]
  have hfun : accepts cfg = fun w => decide (cfg.contain.data <:+: w.Address.data) := by
    funext w
    rw [accepts_eq, Contains, Bool.eq_iff_iff, containsChars_iff]
    simp
  have hcount : st.resolvedCount = (((wallets cfg hd 0 n).countP
      (fun w => decide (cfg.contain.data <:+: w.Address.data)) : Nat) : Int) := by
    rw [h3, matched, hfun, List.countP_eq_length_filter]
  refine ⟨st, h0, hlen, hcount, ?_, ?_⟩
  · intro hS
    rw [hcount, hS]
    have hall : (wallets cfg hd 0 n).countP (fun w => decide ("".data <:+: w.Address.data))
        = (wallets cfg hd 0 n).length := by
      rw [List.countP_eq_length]
      intro w _
      simp
    rw [hall, hlen]
  · intro hnone
    rw [hcount]
    have hzero : (wallets cfg hd 0 n).countP
        (fun w => decide (cfg.contain.data <:+: w.Address.data)) = 0 := by
      rw [List.countP_eq_zero]
      intro w hw
      simpa using hnone w hw
    rw [hzero]
    rfl

/-- C2 at `-n 12 -c 5 -contain m1`, in the persistence branch. -/
theorem C2_witness :
    ∃ st, worker (sampleConfig 12 5 "wallets.db" "m1" false) sampleHD 13 = some st ∧
      (wallets (sampleConfig 12 5 "wallets.db" "m1" false) sampleHD 0 12).length = 12 ∧
      st.resolvedCount = (((wallets (sampleConfig 12 5 "wallets.db" "m1" false) sampleHD 0 12).countP
        (fun w => decide ((sampleConfig 12 5 "wallets.db" "m1" false).contain.data
          <:+: w.Address.data)) : Nat) : Int) ∧
      ((sampleConfig 12 5 "wallets.db" "m1" false).contain = "" →
        st.resolvedCount = ((12 : Nat) : Int)) ∧
      ((∀ w ∈ wallets (sampleConfig 12 5 "wallets.db" "m1" false) sampleHD 0 12,
          ¬ (sampleConfig 12 5 "wallets.db" "m1" false).contain.data <:+: w.Address.data) →
        st.resolvedCount = 0) :=
  C2_resolvedCount_counts_matches (sampleConfig 12 5 "wallets.db" "m1" false) sampleHD 12 5 13
    rfl rfl (by decide) (by decide)

/-- C3: for every `n ≥ 0` and `c ≥ 1`, with a persistence path configured the
trace of the run is, after the optional schema migration, the succession of
`ceil(n / c)` strides, each of the form `txBegin`, the tasks of the stride,
`wgWait`, `txCommit`; the rows created between a `txBegin` and its `txCommit`
are exactly the wallets of that stride that pass the filter, no task stretch
holds a `txBegin` or `txCommit`, and the run performs exactly `ceil(n / c)`
begins and as many commits, leaving no transaction open. -/
theorem C3_one_commit_per_stride (cfg : Config) (hd : HDWallet) (n c fuel : Nat)
    (hN : cfg.number = (n : Int)) (hC : cfg.concurrency = (c : Int)) (hc : 1 ≤ c)
    (hf : n < fuel) (hdb : cfg.dbPath ≠ "") :
    ∃ st, worker cfg hd fuel = some st ∧
      st.trace = dbPrelude cfg ++ (List.range ⌈(n : ℚ) / (c : ℚ)⌉₊).flatMap
        (fun q => Event.txBegin :: tasksTrace cfg hd (q * c) (min c (n - q * c))
          ++ [Event.wgWait, Event.txCommit]) ∧
      (∀ s k, createdIn (tasksTrace cfg hd s k) = matched cfg hd s k ∧
        calledIn (tasksTrace cfg hd s k) = List.range' s k ∧
        Event.txBegin ∉ tasksTrace cfg hd s k ∧ Event.txCommit ∉ tasksTrace cfg hd s k) ∧
      st.trace.count Event.txCommit = ⌈(n : ℚ) / (c : ℚ)⌉₊ ∧
      st.trace.count Event.txBegin = ⌈(n : ℚ) / (c : ℚ)⌉₊ ∧
      st.pending = [] ∧
      st.rows = (if cfg.isDryrun then [] else matched cfg hd 0 n) := by
  obtain ⟨st, h0, _, _, _, _, h5, h6, h7, _⟩ := worker_db_spec cfg hd n c fuel hN hC hc hf hdb
  have hpre : ∀ e, e = Event.txBegin ∨ e = Event.txCommit → (dbPrelude cfg).count e = 0 := by
    intro e he
    unfold dbPrelude
    rcases he with he | he <;> split <;> simp [he]
  refine ⟨st, h0, ?_, ?_, ?_, ?_, h7, h6⟩
  · rw [h5, ← ceilDiv_eq_ceil n c hc]; rfl
  · intro s k
    refine ⟨createdIn_tasksTrace cfg hd s k, calledIn_tasksTrace cfg hd s k, ?_, ?_⟩
    · intro hmem
      rcases tasksTrace_mem cfg hd s k _ hmem with ⟨t, ht⟩ | ⟨w, hw⟩ <;> simp at *
    · intro hmem
      rcases tasksTrace_mem cfg hd s k _ hmem with ⟨t, ht⟩ | ⟨w, hw⟩ <;> simp at *
  · rw [h5, List.count_append, hpre _ (Or.inr rfl), count_dbStrides cfg hd n c _ _ (Or.inr rfl),
      ← ceilDiv_eq_ceil n c hc, Nat.zero_add]
  · rw [h5, List.count_append, hpre _ (Or.inl rfl), count_dbStrides cfg hd n c _ _ (Or.inl rfl),
      ← ceilDiv_eq_ceil n c hc, Nat.zero_add]

/-- C3 at `-n 100 -c 10 -contain ab -db wallets.db`. -/
theorem C3_witness :
    ∃ st, worker (sampleConfig 100 10 "wallets.db" "ab" false) sampleHD 101 = some st ∧
      st.trace = dbPrelude (sampleConfig 100 10 "wallets.db" "ab" false)
        ++ (List.range ⌈((100 : Nat) : ℚ) / ((10 : Nat) : ℚ)⌉₊).flatMap
        (fun q => Event.txBegin :: tasksTrace (sampleConfig 100 10 "wallets.db" "ab" false)
          sampleHD (q * 10) (min 10 (100 - q * 10)) ++ [Event.wgWait, Event.txCommit]) ∧
      (∀ s k, createdIn (tasksTrace (sampleConfig 100 10 "wallets.db" "ab" false) sampleHD s k)
          = matched (sampleConfig 100 10 "wallets.db" "ab" false) sampleHD s k ∧
        calledIn (tasksTrace (sampleConfig 100 10 "wallets.db" "ab" false) sampleHD s k)
          = List.range' s k ∧
        Event.txBegin ∉ tasksTrace (sampleConfig 100 10 "wallets.db" "ab" false) sampleHD s k ∧
        Event.txCommit ∉ tasksTrace (sampleConfig 100 10 "wallets.db" "ab" false) sampleHD s k) ∧
      st.trace.count Event.txCommit = ⌈((100 : Nat) : ℚ) / ((10 : Nat) : ℚ)⌉₊ ∧
      st.trace.count Event.txBegin = ⌈((100 : Nat) : ℚ) / ((10 : Nat) : ℚ)⌉₊ ∧
      st.pending = [] ∧
      st.rows = (if (sampleConfig 100 10 "wallets.db" "ab" false).isDryrun then []
        else matched (sampleConfig 100 10 "wallets.db" "ab" false) sampleHD 0 100) :=
  C3_one_commit_per_stride (sampleConfig 100 10 "wallets.db" "ab" false) sampleHD 100 10 101
    rfl rfl (by decide) (by decide) (by decide)

/-- C4 (at the failing input `-n 1 -c 0`): with concurrency `0` and one
wallet to generate, the worker does not return on any fuel, in either branch:
the outer loop restarts the stride at index `0` for ever. -/
theorem C4_zero_concurrency_never_returns (hd : HDWallet) (dbPath contain : String)
    (isDryrun : Bool) (fuel : Nat) :
    worker (sampleConfig 1 0 dbPath contain isDryrun) hd fuel = none := by
  have hdbLoop : ∀ st, dbOuter (sampleConfig 1 0 dbPath contain isDryrun) hd fuel fuel 0 st
      = none := by
    intro st
    rw [dbOuter_eq_loopI]
    exact loopI_zero_stride _ 1 fuel 0 st (by decide)
  have hreportLoop : ∀ st,
      reportOuter (sampleConfig 1 0 dbPath contain isDryrun) hd fuel fuel 0 st = none := by
    intro st
    rw [reportOuter_eq_loopI]
    exact loopI_zero_stride _ 1 fuel 0 st (by decide)
  unfold worker
  simp only [hdbLoop, hreportLoop]
  split <;> rfl

/-- C5: along every sequence of operator signals, worker completion, receive
and summary events from the start of `main`, the summary has been printed
exactly once when the process has terminated and not at all before; a
terminated process takes no further event; whenever a notification is in the
channel while `main` waits, receiving it and running the deferred function
terminates the process with one summary; and this is what happens after the
completion of the worker, after an operator signal, and when both occur, in
any order. -/
theorem C5_summary_printed_exactly_once :
    (∀ evs s, Lifecycle.run Lifecycle.init evs = some s →
      s.summaries = if s.phase = Phase.Terminated then 1 else 0) ∧
    (∀ evs s e, Lifecycle.run Lifecycle.init evs = some s → s.phase = Phase.Terminated →
      s.step e = none) ∧
    (∀ evs s, Lifecycle.run Lifecycle.init evs = some s → s.phase = Phase.Running →
      s.interrupt ≠ none →
      ∃ s2, Lifecycle.run s [LifeEvent.receive, LifeEvent.summary] = some s2 ∧
        s2.phase = Phase.Terminated ∧ s2.summaries = 1) ∧
    (∃ s, Lifecycle.run Lifecycle.init
        [LifeEvent.workerDone, LifeEvent.receive, LifeEvent.summary] = some s ∧
      s.phase = Phase.Terminated ∧ s.summaries = 1) ∧
    (∀ sig, ∃ s, Lifecycle.run Lifecycle.init
        [LifeEvent.operatorSignal sig, LifeEvent.receive, LifeEvent.summary] = some s ∧
      s.phase = Phase.Terminated ∧ s.summaries = 1) ∧
    (∀ sig, ∃ s, Lifecycle.run Lifecycle.init
        [LifeEvent.workerDone, LifeEvent.operatorSignal sig, LifeEvent.receive,
          LifeEvent.summary] = some s ∧
      s.phase = Phase.Terminated ∧ s.summaries = 1) ∧
    (∀ sig, ∃ s, Lifecycle.run Lifecycle.init
        [LifeEvent.operatorSignal sig, LifeEvent.receive, LifeEvent.workerDone,
          LifeEvent.summary] = some s ∧
      s.phase = Phase.Terminated ∧ s.summaries = 1) ∧
    (∀ sig, ∃ s, Lifecycle.run Lifecycle.init
        [LifeEvent.workerDone, LifeEvent.receive, LifeEvent.operatorSignal sig,
          LifeEvent.summary] = some s ∧
      s.phase = Phase.Terminated ∧ s.summaries = 1) := by
  have hinit : SummaryOnce Lifecycle.init := by simp [SummaryOnce, Lifecycle.init]
  refine ⟨?_, ?_, ?_, ?_, ?_, ?_, ?_, ?_⟩
  · intro evs s hr
    exact SummaryOnce_run evs Lifecycle.init s hinit hr
  · intro evs s e _ hph
    cases e <;> simp [Lifecycle.step, hph]
  · intro evs s hr hph hch
    have hone := SummaryOnce_run evs Lifecycle.init s hinit hr
    obtain ⟨phase, interrupt, workerSent, summaries⟩ := s
    cases interrupt with
    | none => exact absurd rfl hch
    | some sig =>
      simp only at hph
      subst hph
      simp only [SummaryOnce] at hone
      simp [Lifecycle.run, Lifecycle.step, hone]
  · exact ⟨_, rfl, rfl, rfl⟩
  · intro sig; exact ⟨_, rfl, rfl, rfl⟩
  · intro sig; exact ⟨_, rfl, rfl, rfl⟩
  · intro sig; exact ⟨_, rfl, rfl, rfl⟩
  · intro sig; exact ⟨_, rfl, rfl, rfl⟩

/-- C6 (at the failing input `-n 2 -c 2 -dryrun`): when both goroutines of the
stride load the counter before either stores it, the dry run without filter
ends with `resolvedCount = 1` although two tasks were launched; nothing is
printed and no row is stored. This holds in the report branch
(`resolvedCount++`, line 183) and, with `-db wallets.db`, in the persistence
branch (`txResolved++`, line 153). -/
theorem C6_dry_run_loses_an_increment :
    (workerRacy (sampleConfig 2 2 "" "" true) sampleHD
        [[0, 1, 0, 1, 0, 1, 0, 1, 0, 1, 0, 1]]).map
        (fun st => (st.launched, st.resolvedCount, st.stdout, st.rows))
      = some (2, 1, "", []) ∧
    (workerRacy (sampleConfig 2 2 "wallets.db" "" true) sampleHD
        [[0, 1, 0, 1, 0, 1, 0, 1]]).map
        (fun st => (st.launched, st.resolvedCount, st.stdout, st.rows))
      = some (2, 1, "", []) := by
  constructor <;> decide

/-- C7 (as stated, refuted): for the address `0xab` the line of the report is
not the address with the padding on its left. -/
theorem C7_counterexample :
    recordLine sampleWallet
      ≠ leftPadded 18 sampleWallet.Address ++ " " ++ sampleWallet.Mnemonic ++ "\n" := by
  decide

/-- C7 (amended): for every wallet, with any address and any mnemonic, the
line of the report is the address followed by the spaces that fill it up to
18 columns (padding on the right), then exactly one space, the mnemonic and a
newline; the padded column is `max 18 (length of the address)` characters
wide, an address of 18 or more characters appears unchanged, and this line is
what a task appends to the report for a wallet that passes the filter. -/
theorem C7_record_line_padded_on_the_right (w : Wallet) :
    recordLine w
        = w.Address ++ Repeat " " (18 - w.Address.length) ++ " " ++ w.Mnemonic ++ "\n" ∧
      (w.Address ++ Repeat " " (18 - w.Address.length)).length = max 18 w.Address.length ∧
      (18 ≤ w.Address.length → recordLine w = w.Address ++ " " ++ w.Mnemonic ++ "\n") ∧
      (∀ (cfg : Config) (hd : HDWallet) (st : State),
        generateNewWallet hd cfg.bits st.calls = w → accepts cfg w = true →
        (reportTask cfg hd st).result = st.result ++ recordLine w) := by
  refine ⟨recordLine_eq w, ?_, ?_, ?_⟩
  · rw [String.length_append, Repeat_length]
    omega
  · intro h
    have hz : 18 - w.Address.length = 0 := by omega
    rw [recordLine_eq, hz]
    simp [Repeat]
  · intro cfg hd st hw hacc
    unfold accepts at hacc
    unfold reportTask
    simp only [hw]
    simp only [Bool.not_eq_true'] at hacc
    simp [hacc, recordLine]

/-- C8 (at the failing input `-n 2 -c 2`, no filter, no persistence): the
report text and `resolvedCount` lose updates independently. When the two
goroutines write the builder in turn but both load the counter before either
stores it, the text holds two record lines and `resolvedCount` is `1`; when
both load the builder before either stores it, the text holds one record line
for the two wallets and `resolvedCount` is `2`. -/
theorem C8_report_lines_differ_from_resolvedCount :
    (workerRacy (sampleConfig 2 2 "" "" false) sampleHD
        [[0, 1, 0, 0, 1, 1, 0, 1, 0, 1, 0, 1]]).map
        (fun st => (st.launched, st.resolvedCount, lineCount st.result, st.result))
      = some (2, 1, 2, recordLine (generateNewWallet sampleHD 256 0)
          ++ recordLine (generateNewWallet sampleHD 256 1)) ∧
    (workerRacy (sampleConfig 2 2 "" "" false) sampleHD
        [[0, 1, 0, 1, 0, 1, 0, 0, 0, 1, 1, 1]]).map
        (fun st => (st.launched, st.resolvedCount, lineCount st.result, st.result))
      = some (2, 2, 1, recordLine (generateNewWallet sampleHD 256 1)) := by
  constructor <;> decide

/-- C9: for `n = 0` and every `c ≥ 1` the worker returns on any positive
fuel without launching a task or running a stride, `resolvedCount` is `0`,
and the speed `resolvedCount / elapsedSeconds` is `0` for every positive
elapsed time. -/
theorem C9_zero_count_zero_speed (cfg : Config) (hd : HDWallet) (c fuel : Nat)
    (hN : cfg.number = 0) (hC : cfg.concurrency = (c : Int)) (hc : 1 ≤ c) (hf : 0 < fuel) :
    ∃ st, worker cfg hd fuel = some st ∧ st.launched = 0 ∧ st.calls = 0 ∧ st.strides = [] ∧
      st.resolvedCount = 0 ∧
      ∀ elapsedSeconds : ℚ, 0 < elapsedSeconds → speed st.resolvedCount elapsedSeconds = 0 := by
  obtain ⟨st, h0, h1, h2, h3, h4⟩ := worker_spec cfg hd 0 c fuel (by simpa using hN) hC hc hf
  have hres : st.resolvedCount = 0 := by simpa [matched, wallets] using h3
  have hk : ceilDiv 0 c = 0 := by
    have := ceilDiv_le 0 c hc
    omega
  refine ⟨st, h0, h2, h1, ?_, hres, ?_⟩
  · rw [h4, hk]; rfl
  · intro e _
    simp [speed, hres]

/-- C9 at `-n 0 -c 4`. -/
theorem C9_witness :
    ∃ st, worker (sampleConfig 0 4 "" "" false) sampleHD 1 = some st ∧ st.launched = 0 ∧
      st.calls = 0 ∧ st.strides = [] ∧ st.resolvedCount = 0 ∧
      ∀ elapsedSeconds : ℚ, 0 < elapsedSeconds → speed st.resolvedCount elapsedSeconds = 0 :=
  C9_zero_count_zero_speed (sampleConfig 0 4 "" "" false) sampleHD 4 1 rfl rfl (by decide)
    (by decide)

/-- C10: for every `n ≥ 0` and `c ≥ 1` the strides of a run are, in order,
those that start at `0, c, 2c, ... < n`, and the stride that starts at index
`i` launches exactly `min(c, n - i)` tasks; so no stride is empty, every
stride but the last has exactly `c` tasks, and when `c > n ≥ 1` the run is the
single stride `(0, n)`. -/
theorem C10_stride_sizes (cfg : Config) (hd : HDWallet) (n c fuel : Nat)
    (hN : cfg.number = (n : Int)) (hC : cfg.concurrency = (c : Int)) (hc : 1 ≤ c)
    (hf : n < fuel) :
    ∃ st, worker cfg hd fuel = some st ∧
      st.strides = (List.range ⌈(n : ℚ) / (c : ℚ)⌉₊).map
        (fun q => (((q * c : Nat) : Int), min c (n - q * c))) ∧
      (∀ e ∈ st.strides, 0 ≤ e.1 ∧ e.1 < (n : Int) ∧
        (e.2 : Int) = min (c : Int) ((n : Int) - e.1) ∧ 1 ≤ e.2) ∧
      (∀ q e, q + 1 < st.strides.length → st.strides[q]? = some e → e.2 = c) ∧
      (1 ≤ n → n < c → st.strides = [(0, n)]) := by
  obtain ⟨st, h0, _, _, _, h4⟩ := worker_spec cfg hd n c fuel hN hC hc hf
  refine ⟨st, h0, ?_, ?_, ?_, ?_⟩
  · rw [h4, ← ceilDiv_eq_ceil n c hc]; rfl
  · intro e he
    rw [h4] at he
    obtain ⟨q, hq, rfl⟩ := strideTable_mem n c _ e he
    have hlt := (lt_ceilDiv_iff n c q hc).1 hq
    dsimp only
    generalize q * c = p at hlt ⊢
    omega
  · intro q e hq he
    rw [h4, strideTable_length] at hq
    rw [h4] at he
    have hq0 : q < ceilDiv n c := by omega
    have hlt := (lt_ceilDiv_iff n c (q + 1) hc).1 hq
    rw [Nat.add_mul] at hlt
    simp only [strideTable, List.getElem?_map, List.getElem?_range hq0, Option.map_some',
      Option.some.injEq] at he
    rw [← he]
    simp only
    omega
  · intro h1 hlt
    have hk : ceilDiv n c = 1 := by
      have ha := (lt_ceilDiv_iff n c 0 hc).2 (by omega)
      have hb : ¬ 1 < ceilDiv n c := fun h => by
        have := (lt_ceilDiv_iff n c 1 hc).1 h
        omega
      omega
    rw [h4, hk]
    have hmin : min c n = n := by omega
    simp [strideTable, List.range_succ, hmin]

/-- C10 at `-n 7 -c 3`, in the report branch. -/
theorem C10_witness :
    ∃ st, worker (sampleConfig 7 3 "" "" false) sampleHD 8 = some st ∧
      st.strides = (List.range ⌈((7 : Nat) : ℚ) / ((3 : Nat) : ℚ)⌉₊).map
        (fun q => (((q * 3 : Nat) : Int), min 3 (7 - q * 3))) ∧
      (∀ e ∈ st.strides, 0 ≤ e.1 ∧ e.1 < ((7 : Nat) : Int) ∧
        (e.2 : Int) = min ((3 : Nat) : Int) (((7 : Nat) : Int) - e.1) ∧ 1 ≤ e.2) ∧
      (∀ q e, q + 1 < st.strides.length → st.strides[q]? = some e → e.2 = 3) ∧
      (1 ≤ 7 → 7 < 3 → st.strides = [(0, 7)]) :=
  C10_stride_sizes (sampleConfig 7 3 "" "" false) sampleHD 7 3 8 rfl rfl (by decide) (by decide)

end WalletGen
